import Mathlib

/-!
Verification of the Summarizer backend (YouTube transcript extraction service).

This file gives a shallow embedding of the parts of the backend that the
claims of the spec are about:

* `clean_transcriber.py` — caption normalization (`_extract_clean_text`,
  `_clean_extracted_text`, `_split_into_sentences`);
* `database_manager.py` — insight extraction (keywords, sentiment label,
  readability), `store_transcript`, `get_transcript_by_url`;
* `audio_transcriber.py` — chunked audio transcription (`transcribe_audio_chunks`);
* `routes/url_extraction.py` — the extract / get / search / delete routes,
  modelled as pure state transformers over an explicit database state.

Python strings are modelled as `List Char` (wrapped in `String` at the API
boundary), Python ints as `Nat`/`Int`, floats as `ℚ`, and fallible calls as
`Option`/`Except`.  External effects (yt-dlp, HTTP, speech recognition,
TextBlob) are oracle parameters: the embedding is faithful to the control
flow of the source, with the library calls abstracted as inputs.
-/

namespace Summarizer

theorem length_dropWhile_le {α : Type} (p : α → Bool) (l : List α) :
    (l.dropWhile p).length ≤ l.length := by
  induction l with
  | nil => simp
  | cons c cs ih =>
    rw [List.dropWhile_cons]
    split
    · exact Nat.le_succ_of_le ih
    · exact Nat.le_refl _

/-! ### Python-style string primitives -/

/-- Whitespace as recognized by Python `str.split` / `\s` (ASCII fragment). -/
def isPySpace (c : Char) : Bool :=
  c = ' ' || c = '\t' || c = '\n' || c = '\r' || c = Char.ofNat 11 || c = Char.ofNat 12

/-- Scanner for `text.split()`: `cur` holds the reversed characters of the
word being built. -/
def splitWsGo (cur : List Char) : List Char → List (List Char)
  | [] => if cur = [] then [] else [cur.reverse]
  | c :: cs =>
    if isPySpace c then
      if cur = [] then splitWsGo [] cs else cur.reverse :: splitWsGo [] cs
    else splitWsGo (c :: cur) cs

/-- `text.split` with no arguments: maximal runs of non-whitespace characters. -/
def splitWs (l : List Char) : List (List Char) :=
  splitWsGo [] l

/-- `join` of the pieces with a single-space separator. -/
def joinSp : List (List Char) → List Char
  | [] => []
  | [w] => w
  | w :: ws => w ++ ' ' :: joinSp ws

/-- Python `str.strip()`. -/
def pyStrip (l : List Char) : List Char :=
  ((l.dropWhile isPySpace).reverse.dropWhile isPySpace).reverse

/-- Fueled scanner for `str.replace`; each step consumes at least one
character, so `l.length` fuel always suffices. -/
def replaceAllF (p : Char) (ps : List Char) (repl : List Char) :
    Nat → List Char → List Char
  | 0, l => l
  | _ + 1, [] => []
  | f + 1, c :: cs =>
    if c = p && ps.isPrefixOf cs then
      repl ++ replaceAllF p ps repl f (cs.drop ps.length)
    else c :: replaceAllF p ps repl f cs

/-- Python `str.replace(pat, repl)` with a nonempty pattern `p :: ps`:
left-to-right, non-overlapping. -/
def replaceAll (p : Char) (ps : List Char) (repl : List Char) (l : List Char) :
    List Char :=
  replaceAllF p ps repl l.length l

/-- The five HTML-entity replacements performed by `_clean_extracted_text`. -/
def htmlUnescape (l : List Char) : List Char :=
  let l1 := replaceAll '&' ['a', 'm', 'p', ';'] ['&'] l
  let l2 := replaceAll '&' ['l', 't', ';'] ['<'] l1
  let l3 := replaceAll '&' ['g', 't', ';'] ['>'] l2
  let l4 := replaceAll '&' ['q', 'u', 'o', 't', ';'] ['"'] l3
  replaceAll '&' ['#', '3', '9', ';'] ['\''] l4

/-- Python regex `\w` (ASCII fragment): letters, digits, underscore. -/
def isWordChar (c : Char) : Bool := c.isAlphanum || c = '_'

/-- `\b` holds before the scan position given the preceding original char. -/
def boundaryOk (prev : Option Char) : Bool :=
  match prev with
  | none => true
  | some c => !isWordChar c

/-- `\b` holds after a match given the remaining original characters. -/
def afterOk : List Char → Bool
  | [] => true
  | c :: _ => !isWordChar c

/-- Try the literal alternatives in order at the head of `l`; on success
return the matched alternative and the rest of the input.  Empty
alternatives never match. -/
def matchAlt (pats : List (List Char)) (l : List Char) :
    Option (List Char × List Char) :=
  match pats with
  | [] => none
  | p :: ps =>
    if p ≠ [] && p.isPrefixOf l then some (p, l.drop p.length)
    else matchAlt ps l

/-- One pass of `re.sub` of `\b(p1|p2|p3)\b` with empty replacement, for literal word
alternatives: scan left to right; at a position where an alternative
matches between word boundaries, drop it and resume right after the match
(boundaries are judged against the original neighbours, as `re.sub` does). -/
def subWordAux (pats : List (List Char)) :
    Nat → Option Char → List Char → List Char
  | 0, _, l => l
  | _ + 1, _, [] => []
  | f + 1, prev, c :: cs =>
    match matchAlt pats (c :: cs) with
    | some (p, rest) =>
      if boundaryOk prev && afterOk rest then
        subWordAux pats f p.getLast? rest
      else c :: subWordAux pats f (some c) cs
    | none => c :: subWordAux pats f (some c) cs

/-- `re.sub` of `\b(p1|..|pk)\b` with empty replacement. -/
def subWordPats (pats : List (List Char)) (l : List Char) : List Char :=
  subWordAux pats l.length none l

/-- `re.sub` of `\[.*?\]` with empty replacement (resp. parentheses): at an opening
delimiter, the non-greedy body runs to the nearest closing delimiter with
no newline in between; absent that, the position does not match. -/
def removeDelimitedF (op cl : Char) : Nat → List Char → List Char
  | 0, l => l
  | _ + 1, [] => []
  | f + 1, c :: cs =>
    if c = op then
      match cs.dropWhile (fun x => x ≠ cl && x ≠ '\n') with
      | [] => c :: removeDelimitedF op cl f cs
      | x :: rest2 =>
        if x = cl then removeDelimitedF op cl f rest2
        else c :: removeDelimitedF op cl f cs
    else c :: removeDelimitedF op cl f cs

def removeDelimited (op cl : Char) (l : List Char) : List Char :=
  removeDelimitedF op cl l.length l

/-- `re.sub` of `\s+` with a single-space replacement: a whitespace run becomes a single
space at its first character; `prevSpace` records whether the scanner is
inside a run. -/
def collapseWsGo (prevSpace : Bool) : List Char → List Char
  | [] => []
  | c :: cs =>
    if isPySpace c then
      if prevSpace then collapseWsGo true cs else ' ' :: collapseWsGo true cs
    else c :: collapseWsGo false cs

def collapseWs (l : List Char) : List Char :=
  collapseWsGo false l

/-- Scanner for `re.split` on a run of delimiters: `cur` holds the
reversed characters of the piece being built, `inDelim` records whether
the previous character was a delimiter. -/
def splitRunsGo (p : Char → Bool) (inDelim : Bool) (cur : List Char) :
    List Char → List (List Char)
  | [] => [cur.reverse]
  | c :: cs =>
    if p c then
      if inDelim then splitRunsGo p true [] cs
      else cur.reverse :: splitRunsGo p true [] cs
    else splitRunsGo p false (c :: cur) cs

/-- `re.split` on the pattern `[.!?]+` generalized over the delimiter predicate:
pieces between maximal delimiter runs, including empty pieces at the ends,
exactly as `re.split` produces them. -/
def splitRuns (p : Char → Bool) (l : List Char) : List (List Char) :=
  splitRunsGo p false [] l

/-- The sentence-terminal characters of the `[.!?]` character class. -/
def sentEnd (c : Char) : Bool := c = '.' || c = '!' || c = '?'

/-! ### `CleanYouTubeTranscriber._split_into_sentences` and
`_clean_extracted_text` -/

/-- `_split_into_sentences`: split on `[.!?]+`, strip each piece, keep the
nonempty ones. -/
def split_into_sentences (l : List Char) : List (List Char) :=
  ((splitRuns sentEnd l).map pyStrip).filter (fun s => s ≠ [])

/-- `_clean_extracted_text`: entity unescaping, whitespace normalization,
removal of music/applause markers and bracketed / parenthesized content,
whitespace collapsing, then sentence split-and-rejoin. -/
def clean_extracted_text (l : List Char) : List Char :=
  if l = [] then []
  else
    let t1 := htmlUnescape l
    let t2 := joinSp (splitWs t1)
    let t3 := subWordPats ["music".data, "Music".data, "MUSIC".data] t2
    let t4 := subWordPats ["applause".data, "Applause".data, "APPLAUSE".data] t3
    let t5 := removeDelimited '[' ']' t4
    let t6 := removeDelimited '(' ')' t5
    let t7 := collapseWs t6
    pyStrip (joinSp (split_into_sentences t7))

/-- String-level wrapper for `_clean_extracted_text`. -/
def cleanExtractedText (s : String) : String :=
  String.mk (clean_extracted_text s.data)

theorem mem_dropWhile {α : Type} {p : α → Bool} {l : List α} {c : α}
    (h : c ∈ l.dropWhile p) : c ∈ l := by
  induction l with
  | nil => simpa using h
  | cons a as ih =>
    rw [List.dropWhile_cons] at h
    split at h
    · exact List.mem_cons_of_mem _ (ih h)
    · exact h

theorem mem_pyStrip {l : List Char} {c : Char} (h : c ∈ pyStrip l) : c ∈ l := by
  unfold pyStrip at h
  rw [List.mem_reverse] at h
  have h2 := mem_dropWhile h
  rw [List.mem_reverse] at h2
  exact mem_dropWhile h2

theorem mem_joinSp {pieces : List (List Char)} {c : Char}
    (h : c ∈ joinSp pieces) : c = ' ' ∨ ∃ w ∈ pieces, c ∈ w := by
  induction pieces with
  | nil => simp [joinSp] at h
  | cons w ws ih =>
    cases ws with
    | nil =>
      exact Or.inr ⟨w, List.mem_cons_self _ _, h⟩
    | cons v vs =>
      rw [show joinSp (w :: v :: vs) = w ++ ' ' :: joinSp (v :: vs) from rfl,
        List.mem_append] at h
      rcases h with h | h
      · exact Or.inr ⟨w, List.mem_cons_self _ _, h⟩
      · rcases List.mem_cons.mp h with h | h
        · exact Or.inl h
        · rcases ih h with h | ⟨u, hu, hcu⟩
          · exact Or.inl h
          · exact Or.inr ⟨u, List.mem_cons_of_mem _ hu, hcu⟩

theorem splitRunsGo_no_delim (p : Char → Bool) (l : List Char) :
    ∀ (b : Bool) (cur : List Char), (∀ c ∈ cur, p c = false) →
    ∀ piece ∈ splitRunsGo p b cur l, ∀ c ∈ piece, p c = false := by
  induction l with
  | nil =>
    intro b cur hcur piece hp c hc
    rcases List.mem_singleton.mp hp with rfl
    exact hcur c (List.mem_reverse.mp hc)
  | cons a as ih =>
    intro b cur hcur piece hp c hc
    by_cases ha : p a = true
    · rw [show splitRunsGo p b cur (a :: as) =
          (if b then splitRunsGo p true [] as
           else cur.reverse :: splitRunsGo p true [] as) by
        rw [splitRunsGo]; simp [ha]] at hp
      split at hp
      · exact ih true [] (by simp) piece hp c hc
      · rcases List.mem_cons.mp hp with rfl | hp
        · exact hcur c (List.mem_reverse.mp hc)
        · exact ih true [] (by simp) piece hp c hc
    · rw [show splitRunsGo p b cur (a :: as) =
          splitRunsGo p false (a :: cur) as by
        rw [splitRunsGo]; simp [ha]] at hp
      refine ih false (a :: cur) ?_ piece hp c hc
      intro d hd
      rcases List.mem_cons.mp hd with rfl | hd
      · simpa using ha
      · exact hcur d hd

theorem splitRuns_no_delim (p : Char → Bool) (l : List Char) :
    ∀ piece ∈ splitRuns p l, ∀ c ∈ piece, p c = false :=
  splitRunsGo_no_delim p l false [] (by simp)

theorem split_into_sentences_no_delim (l : List Char) :
    ∀ piece ∈ split_into_sentences l, ∀ c ∈ piece, sentEnd c = false := by
  intro piece hp c hc
  unfold split_into_sentences at hp
  have hp2 := List.mem_of_mem_filter hp
  rcases List.mem_map.mp hp2 with ⟨q, hq, rfl⟩
  exact splitRuns_no_delim sentEnd l q hq c (mem_pyStrip hc)

theorem clean_extracted_text_no_delim (l : List Char) :
    ∀ c ∈ clean_extracted_text l, sentEnd c = false := by
  intro c hc
  unfold clean_extracted_text at hc
  split at hc
  · simp at hc
  · rcases mem_joinSp (mem_pyStrip hc) with rfl | ⟨w, hw, hcw⟩
    · decide
    · exact split_into_sentences_no_delim _ w hw c hcw

/-! ### `DatabaseManager._extract_structured_data`: keywords, sentiment -/

/-- Scanner for maximal runs of `\w` characters. -/
def wordRunsGo (cur : List Char) : List Char → List (List Char)
  | [] => if cur = [] then [] else [cur.reverse]
  | c :: cs =>
    if isWordChar c then wordRunsGo (c :: cur) cs
    else if cur = [] then wordRunsGo [] cs
    else cur.reverse :: wordRunsGo [] cs

def wordRuns (l : List Char) : List (List Char) :=
  wordRunsGo [] l

/-- `re.findall` of `\b[a-zA-Z]{3,}\b` over `transcript_content.lower()`: a match
is a maximal `\w` run that is entirely alphabetic (otherwise one of its
`\b` anchors would sit between two word characters) of length at least 3,
taken over the lower-cased text. -/
def findall_words (s : String) : List String :=
  ((wordRuns (s.data.map Char.toLower)).filter
    (fun r => r.all Char.isAlpha && decide (3 ≤ r.length))).map String.mk

/-- The fixed stop-word set of `_extract_structured_data`. -/
def stop_words : List String :=
  ["the", "and", "for", "are", "but", "not", "you", "all", "can", "had",
   "her", "was", "one", "our", "out", "day", "get", "has", "him", "his",
   "how", "man", "new", "now", "old", "see", "two", "way", "who", "boy",
   "did", "its", "let", "put", "say", "she", "too", "use"]

/-- `[word for word in words if word not in stop_words and len(word) > 3]`. -/
def filtered_words (s : String) : List String :=
  (findall_words s).filter
    (fun w => !(stop_words.contains w) && decide (3 < w.length))

/-- The keys of `Counter(filtered_words)` in first-occurrence order. -/
def uniqueInOrder (l : List String) : List String :=
  l.foldl (fun acc w => if acc.contains w then acc else acc ++ [w]) []

/-- Stable insertion for a descending sort by count: `w` goes before the
first element whose count is not larger. -/
def insertByCount (cnt : String → Nat) (w : String) : List String → List String
  | [] => [w]
  | x :: xs =>
    if cnt w < cnt x then x :: insertByCount cnt w xs
    else w :: x :: xs

/-- Stable descending sort by count, as `Counter.most_common` produces
(ties keep first-insertion order). -/
def sortByCountDesc (cnt : String → Nat) : List String → List String
  | [] => []
  | w :: ws => insertByCount cnt w (sortByCountDesc cnt ws)

/-- `[word for word, count in Counter(filtered_words).most_common(10)]`. -/
def extract_keywords (s : String) : List String :=
  let filtered := filtered_words s
  (sortByCountDesc (fun w => filtered.count w) (uniqueInOrder filtered)).take 10

/-- `positive` when the score exceeds 0.1, `negative` below -0.1, else `neutral`. -/
def sentiment_label (score : ℚ) : String :=
  if score > 1 / 10 then "positive"
  else if score < -(1 / 10) then "negative"
  else "neutral"

/-- Python `round(x, n)` modelled over `ℚ` (half-way ties round up here
where the float rounding of Python is to-even; no claim below depends on the
tie case). -/
def pyRoundTo (n : Nat) (q : ℚ) : ℚ :=
  (round (q * (10 ^ n : ℕ)) : ℤ) / (10 ^ n : ℕ)

/-- The stored sentiment score: `round(sentiment_score, 3)` where
`sentiment_score` is the TextBlob polarity of the first 1000 characters,
taken here as an oracle input. -/
def stored_sentiment_score (polarity : ℚ) : ℚ :=
  pyRoundTo 3 polarity

/-! ### `DatabaseManager._calculate_readability` -/

/-- the length of `re.split` on `[.!?]+`. -/
def sentenceCount (s : String) : Nat :=
  (splitRuns sentEnd s.data).length

/-- `len(text.split())`. -/
def pyWordCount (s : String) : Nat :=
  (splitWs s.data).length

/-- `_calculate_readability`: clamp `100 - avg_sentence_length * 2` to
`[0, 100]` and round to one decimal; `0` when there are no words or no
sentence pieces. -/
def calculate_readability (s : String) : ℚ :=
  if sentenceCount s = 0 ∨ pyWordCount s = 0 then 0
  else pyRoundTo 1 (max 0 (min 100
    (100 - ((pyWordCount s : ℚ) / (sentenceCount s : ℚ)) * 2)))

theorem mem_insertByCount {cnt : String → Nat} {w x : String}
    {l : List String} (h : x ∈ insertByCount cnt w l) : x = w ∨ x ∈ l := by
  induction l with
  | nil => simpa [insertByCount] using h
  | cons a as ih =>
    rw [insertByCount] at h
    split at h
    · rcases List.mem_cons.mp h with rfl | h
      · exact Or.inr (List.mem_cons_self _ _)
      · rcases ih h with rfl | h
        · exact Or.inl rfl
        · exact Or.inr (List.mem_cons_of_mem _ h)
    · rcases List.mem_cons.mp h with rfl | h
      · exact Or.inl rfl
      · exact Or.inr h

theorem mem_sortByCountDesc {cnt : String → Nat} {x : String}
    {l : List String} (h : x ∈ sortByCountDesc cnt l) : x ∈ l := by
  induction l with
  | nil => simpa [sortByCountDesc] using h
  | cons a as ih =>
    rw [sortByCountDesc] at h
    rcases mem_insertByCount h with rfl | h
    · exact List.mem_cons_self _ _
    · exact List.mem_cons_of_mem _ (ih h)

theorem mem_uniqueFold {x : String} :
    ∀ (l acc : List String),
    x ∈ l.foldl (fun acc w => if acc.contains w then acc else acc ++ [w]) acc →
    x ∈ acc ∨ x ∈ l := by
  intro l
  induction l with
  | nil => intro acc h; exact Or.inl h
  | cons a as ih =>
    intro acc h
    rw [List.foldl_cons] at h
    rcases ih _ h with h | h
    · split at h
      · exact Or.inl h
      · rcases List.mem_append.mp h with h | h
        · exact Or.inl h
        · exact Or.inr (List.mem_cons.mpr (Or.inl (List.mem_singleton.mp h)))
    · exact Or.inr (List.mem_cons_of_mem _ h)

theorem mem_uniqueInOrder {x : String} {l : List String}
    (h : x ∈ uniqueInOrder l) : x ∈ l := by
  rcases mem_uniqueFold l [] h with h | h
  · simp at h
  · exact h

/-- C5 (amended): keyword extraction tokenizes the lower-cased transcript
into alphabetic words of length at least 3, but then keeps only words of
length strictly greater than 3 that are not stop words, and returns at
most 10 of them ranked by frequency; so every returned keyword is a
non-stop-word token of length at least 4 (words of length exactly 3 are
never eligible). -/
theorem claim_C5 (s : String) (w : String) :
    (w ∈ extract_keywords s →
      w ∈ findall_words s ∧ w ∉ stop_words ∧ 4 ≤ w.length) ∧
    (extract_keywords s).length ≤ 10 := by
  constructor
  · intro h
    unfold extract_keywords at h
    have h1 : w ∈ uniqueInOrder (filtered_words s) :=
      mem_sortByCountDesc (List.take_subset _ _ h)
    have h2 : w ∈ filtered_words s := mem_uniqueInOrder h1
    unfold filtered_words at h2
    have h3 := List.mem_filter.mp h2
    obtain ⟨hmem, hpred⟩ := h3
    simp only [Bool.and_eq_true, Bool.not_eq_eq_eq_not, Bool.not_true,
      decide_eq_true_eq] at hpred
    obtain ⟨hstop, hlen⟩ := hpred
    refine ⟨hmem, ?_, by omega⟩
    intro hw
    have hc : stop_words.contains w = true := by
      rw [List.contains_eq_any_beq, List.any_eq_true]
      exact ⟨w, hw, by simp⟩
    rw [hc] at hstop
    exact Bool.true_eq_false.mp hstop
  · exact List.length_take_le _ _

/-- C5 witness instance. -/
theorem claim_C5_witness :
    ("wonderful" ∈ extract_keywords "wonderful stuff wonderful" →
      "wonderful" ∈ findall_words "wonderful stuff wonderful" ∧
      "wonderful" ∉ stop_words ∧ 4 ≤ "wonderful".length) ∧
    "wonderful" ∈ extract_keywords "wonderful stuff wonderful" :=
  ⟨(claim_C5 "wonderful stuff wonderful" "wonderful").1, by decide⟩

/-- C5 counterexample: the transcript `"fox fox fox fox"` tokenizes to
four occurrences of the non-stop-word `"fox"` of length exactly 3, yet
the keyword list is empty: length-3 words are not eligible, refuting the
claim as stated. -/
theorem claim_C5_counterexample :
    "fox" ∈ findall_words "fox fox fox fox" ∧
    "fox" ∉ stop_words ∧
    "fox".length = 3 ∧
    extract_keywords "fox fox fox fox" = [] := by
  refine ⟨by decide, by decide, by decide, by decide⟩

theorem round_mono_rat {x y : ℚ} (h : x ≤ y) : round x ≤ round y := by
  rw [round_eq, round_eq]
  exact Int.floor_le_floor (by linarith)

theorem pyRoundTo_le_of_le {n : ℕ} {q : ℚ} {b : ℤ} (h : q ≤ (b : ℚ)) :
    pyRoundTo n q ≤ (b : ℚ) := by
  unfold pyRoundTo
  have hM : (0 : ℚ) < ((10 ^ n : ℕ) : ℚ) := by positivity
  rw [div_le_iff hM]
  have h2 : round ((b : ℚ) * ((10 ^ n : ℕ) : ℚ)) = b * (10 ^ n : ℕ) := by
    have hcast : (b : ℚ) * ((10 ^ n : ℕ) : ℚ) = ((b * (10 ^ n : ℕ) : ℤ) : ℚ) := by
      push_cast; ring
    rw [hcast, round_intCast]
  have h3 : round (q * ((10 ^ n : ℕ) : ℚ)) ≤ (b * (10 ^ n : ℕ) : ℤ) := by
    rw [← h2]
    exact round_mono_rat (mul_le_mul_of_nonneg_right h (le_of_lt hM))
  calc ((round (q * ((10 ^ n : ℕ) : ℚ)) : ℤ) : ℚ)
      ≤ ((b * (10 ^ n : ℕ) : ℤ) : ℚ) := by exact_mod_cast h3
    _ = (b : ℚ) * ((10 ^ n : ℕ) : ℚ) := by push_cast; ring

theorem le_pyRoundTo_of_le {n : ℕ} {q : ℚ} {a : ℤ} (h : (a : ℚ) ≤ q) :
    (a : ℚ) ≤ pyRoundTo n q := by
  unfold pyRoundTo
  have hM : (0 : ℚ) < ((10 ^ n : ℕ) : ℚ) := by positivity
  rw [le_div_iff hM]
  have h2 : round ((a : ℚ) * ((10 ^ n : ℕ) : ℚ)) = a * (10 ^ n : ℕ) := by
    have hcast : (a : ℚ) * ((10 ^ n : ℕ) : ℚ) = ((a * (10 ^ n : ℕ) : ℤ) : ℚ) := by
      push_cast; ring
    rw [hcast, round_intCast]
  have h3 : (a * (10 ^ n : ℕ) : ℤ) ≤ round (q * ((10 ^ n : ℕ) : ℚ)) := by
    rw [← h2]
    exact round_mono_rat (mul_le_mul_of_nonneg_right h (le_of_lt hM))
  calc (a : ℚ) * ((10 ^ n : ℕ) : ℚ)
      = ((a * (10 ^ n : ℕ) : ℤ) : ℚ) := by push_cast; ring
    _ ≤ ((round (q * ((10 ^ n : ℕ) : ℚ)) : ℤ) : ℚ) := by exact_mod_cast h3

theorem splitRunsGo_ne_nil (p : Char → Bool) (l : List Char) :
    ∀ (b : Bool) (cur : List Char), splitRunsGo p b cur l ≠ [] := by
  induction l with
  | nil => intro b cur; simp [splitRunsGo]
  | cons a as ih =>
    intro b cur
    rw [splitRunsGo]
    split
    · split
      · exact ih true []
      · simp
    · exact ih false (a :: cur)

/-- `re.split` never returns an empty list, so the `sentences == 0` guard
in `_calculate_readability` is dead code. -/
theorem sentenceCount_pos (s : String) : 0 < sentenceCount s := by
  unfold sentenceCount splitRuns
  exact List.length_pos.mpr (splitRunsGo_ne_nil sentEnd s.data false [])

/-- C6 (amended): the readability score returned by
`_calculate_readability` always lies in `[0, 100]` and, whenever the text
has at least one word, equals `clamp(0, 100, 100 - 2 * avg_words_per_sentence)`
rounded to one decimal place; the stored sentiment score (the polarity of
the first 1000 characters rounded to three decimals) lies in `[-1, 1]`
whenever the polarity does; and the sentiment label thresholds the raw
polarity at `±0.1`, with the boundary values `0.1` and `-0.1` both mapped
to `neutral`. -/
theorem claim_C6 (s : String) (polarity : ℚ)
    (hp1 : -1 ≤ polarity) (hp2 : polarity ≤ 1) :
    (0 ≤ calculate_readability s ∧ calculate_readability s ≤ 100) ∧
    (pyWordCount s ≠ 0 →
      calculate_readability s =
        pyRoundTo 1 (max 0 (min 100
          (100 - ((pyWordCount s : ℚ) / (sentenceCount s : ℚ)) * 2)))) ∧
    (-1 ≤ stored_sentiment_score polarity ∧
      stored_sentiment_score polarity ≤ 1) ∧
    (1 / 10 < polarity → sentiment_label polarity = "positive") ∧
    (polarity < -(1 / 10) → sentiment_label polarity = "negative") ∧
    (-(1 / 10) ≤ polarity → polarity ≤ 1 / 10 →
      sentiment_label polarity = "neutral") := by
  refine ⟨?_, ?_, ?_, ?_, ?_, ?_⟩
  · unfold calculate_readability
    split
    · norm_num
    · constructor
      · have h0 : ((0 : ℤ) : ℚ) ≤ max 0 (min 100
            (100 - ((pyWordCount s : ℚ) / (sentenceCount s : ℚ)) * 2)) := by
          push_cast
          exact le_max_left _ _
        have := le_pyRoundTo_of_le (n := 1) h0
        simpa using this
      · have h100 : max (0 : ℚ) (min 100
            (100 - ((pyWordCount s : ℚ) / (sentenceCount s : ℚ)) * 2)) ≤
            ((100 : ℤ) : ℚ) := by
          push_cast
          exact max_le (by norm_num) (min_le_left _ _)
        have := pyRoundTo_le_of_le (n := 1) h100
        simpa using this
  · intro hw
    unfold calculate_readability
    have hs := sentenceCount_pos s
    rw [if_neg (by omega)]
  · constructor
    · have := le_pyRoundTo_of_le (n := 3) (a := -1) (by exact_mod_cast hp1)
      simpa [stored_sentiment_score] using this
    · have := pyRoundTo_le_of_le (n := 3) (b := 1) (by exact_mod_cast hp2)
      simpa [stored_sentiment_score] using this
  · intro h
    unfold sentiment_label
    rw [if_pos h]
  · intro h
    unfold sentiment_label
    rw [if_neg (by linarith), if_pos h]
  · intro ha hb
    unfold sentiment_label
    rw [if_neg (by linarith), if_neg (by linarith)]

/-- C6 witness instance. -/
theorem claim_C6_witness :
    (-1 ≤ (1 : ℚ) / 10 ∧ (1 : ℚ) / 10 ≤ 1) ∧
    sentiment_label (1 / 10) = "neutral" ∧
    (0 ≤ calculate_readability "a. b. c d" ∧
      calculate_readability "a. b. c d" ≤ 100) :=
  ⟨⟨by norm_num, by norm_num⟩,
   (claim_C6 "a. b. c d" (1 / 10) (by norm_num) (by norm_num)).2.2.2.2.2
     (by norm_num) (by norm_num),
   (claim_C6 "a. b. c d" (1 / 10) (by norm_num) (by norm_num)).1⟩

/-- C6 counterexample: on the text `"a. b. c d"` (4 words, 3 sentence
pieces) the function returns `97.3`, the clamp value rounded to one
decimal, which differs from the exact `clamp(0,100, 100 - 2*(4/3)) =
292/3` that the claim states the score equals. -/
theorem claim_C6_counterexample :
    calculate_readability "a. b. c d" = 973 / 10 ∧
    max (0 : ℚ) (min 100
      (100 - ((pyWordCount "a. b. c d" : ℚ) /
        (sentenceCount "a. b. c d" : ℚ)) * 2)) = 292 / 3 ∧
    (973 / 10 : ℚ) ≠ 292 / 3 := by
  have h1 : sentenceCount "a. b. c d" = 3 := by decide
  have h2 : pyWordCount "a. b. c d" = 4 := by decide
  refine ⟨?_, ?_, by norm_num⟩
  · rw [calculate_readability, h1, h2]
    norm_num [pyRoundTo, round_eq]
  · rw [h1, h2]
    norm_num

/-! ### `AudioTranscriber.transcribe_audio_chunks`

The download and the per-chunk speech recognition are external effects:
`downloadOk` stands for the download having produced a `.wav` file, and
`recognize i` is the string `_transcribe_audio_file` returns for chunk
`i` (its failure paths all return strings starting with
`"Audio transcription failed"`).  The `pydub`/`speech_recognition`
imports are assumed available. -/

/-- One per-segment audit entry (`chunk_info` in the source). -/
structure ChunkInfo where
  index : Nat
  start_time : Nat
  end_time : Nat
  transcript : String
deriving DecidableEq, Repr

/-- The failure marker tested by `chunk_transcript.startswith(...)`. -/
def failMarker : String := "Audio transcription failed"

/-- Python `s.startswith(pre)` (list-level prefix test). -/
def strStartsWith (s pre : String) : Bool := pre.data.isPrefixOf s.data

/-- `len(range(0, audioLen, chunkLen))`. -/
def numChunks (audioLen chunkLen : Nat) : Nat :=
  (audioLen + chunkLen - 1) / chunkLen

/-- The body of the `for i, chunk_start in enumerate(range(...))` loop:
append the audit entry for segment `i`, and append its text to the
successful parts unless it starts with the failure marker. -/
def chunkStep (recognize : Nat → String) (audioLen chunkLen : Nat)
    (acc : List ChunkInfo × List String) (i : Nat) :
    List ChunkInfo × List String :=
  (acc.1 ++ [⟨i, i * chunkLen / 1000, min (i * chunkLen + chunkLen) audioLen / 1000,
      recognize i⟩],
   if strStartsWith (recognize i) failMarker then acc.2
   else acc.2 ++ [recognize i])

/-- Return value of `transcribe_audio_chunks`: the error dictionaries
carry `error`, an empty transcript and an empty chunk list; the success
dictionary carries the joined transcript, the audit list, its length and
the method. -/
inductive ChunkOutcome where
  | failure (error : String)
  | success (transcript : String) (chunks : List ChunkInfo)
      (total_chunks : Nat) (method : String)
deriving DecidableEq, Repr

/-- `transcribe_audio_chunks`: chunk the audio into `chunk_duration`-second
segments, transcribe each, audit every segment, and join the successful
texts with single spaces (`chunk_duration = 0` raises `ValueError` inside
`range`, caught by the outer handler). -/
def transcribe_audio_chunks (recognize : Nat → String) (downloadOk : Bool)
    (audioLen chunkDuration : Nat) (method : String) : ChunkOutcome :=
  if downloadOk = false then .failure "Could not download audio file"
  else if chunkDuration = 0 then
    .failure "Chunked transcription failed: range() arg 3 must not be zero"
  else
    let r := (List.range (numChunks audioLen (chunkDuration * 1000))).foldl
      (chunkStep recognize audioLen (chunkDuration * 1000)) ([], [])
    .success (String.intercalate " " r.2) r.1 r.1.length method

theorem chunkFold_spec (recognize : Nat → String) (audioLen chunkLen : Nat) :
    ∀ (n : Nat) (acc : List ChunkInfo × List String),
    (List.range n).foldl (chunkStep recognize audioLen chunkLen) acc =
      (acc.1 ++ (List.range n).map (fun i =>
          ⟨i, i * chunkLen / 1000,
            min (i * chunkLen + chunkLen) audioLen / 1000, recognize i⟩),
       acc.2 ++ ((List.range n).map recognize).filter
          (fun t => !(strStartsWith t failMarker))) := by
  intro n
  induction n with
  | zero => intro acc; simp
  | succ n ih =>
    intro acc
    rw [List.range_succ, List.foldl_append]
    rw [ih]
    simp only [List.foldl_cons, List.foldl_nil, chunkStep, List.map_append,
      List.map_cons, List.map_nil, List.filter_append]
    rw [Prod.mk.injEq]
    constructor
    · rw [List.append_assoc]
    · split
      · rename_i hfail
        simp [hfail, List.filter_cons]
      · rename_i hfail
        rw [Bool.not_eq_true] at hfail
        simp [List.filter_cons, hfail, List.append_assoc]

/-- C7: for a positive chunk duration, chunked transcription produces
exactly one audit entry per fixed-duration segment, carrying its index,
start and end offsets in seconds, and the text from the recognizer (or failure
marker), whether or not recognition succeeded; the returned transcript is
the space-join of exactly the texts not starting with the failure marker;
and `total_chunks` is the number of segments. -/
theorem claim_C7 (recognize : Nat → String) (audioLen chunkDuration : Nat)
    (method : String) (h : 0 < chunkDuration) :
    transcribe_audio_chunks recognize true audioLen chunkDuration method =
      .success
        (String.intercalate " "
          (((List.range (numChunks audioLen (chunkDuration * 1000))).map
              recognize).filter (fun t => !(strStartsWith t failMarker))))
        ((List.range (numChunks audioLen (chunkDuration * 1000))).map
          (fun i => ⟨i, i * (chunkDuration * 1000) / 1000,
            min (i * (chunkDuration * 1000) + chunkDuration * 1000) audioLen / 1000,
            recognize i⟩))
        (numChunks audioLen (chunkDuration * 1000))
        method := by
  unfold transcribe_audio_chunks
  rw [if_neg (by simp), if_neg (by omega)]
  rw [chunkFold_spec]
  simp

/-- C7 witness: 5 segments of a 290-second audio at 60-second chunks,
where segments 1, 2, 3 fail recognition: the audit list has length 5 and
the transcript is the join of the two successful texts. -/
def recFiveChunks : Nat → String := fun i =>
  if i = 0 then "hello"
  else if i = 4 then "world"
  else "Audio transcription failed: Could not understand audio"

set_option maxRecDepth 8000 in
theorem claim_C7_witness :
    transcribe_audio_chunks recFiveChunks true 290000 60 "google" =
      .success "hello world"
        [⟨0, 0, 60, "hello"⟩,
         ⟨1, 60, 120, "Audio transcription failed: Could not understand audio"⟩,
         ⟨2, 120, 180, "Audio transcription failed: Could not understand audio"⟩,
         ⟨3, 180, 240, "Audio transcription failed: Could not understand audio"⟩,
         ⟨4, 240, 290, "world"⟩]
        5 "google" := by
  rw [claim_C7 recFiveChunks 290000 60 "google" (by decide)]
  simp only [show numChunks 290000 (60 * 1000) = 5 by rfl, List.range_succ,
    List.range_zero, List.map_append, List.map_cons, List.map_nil,
    List.filter_append, List.nil_append]
  decide

/-! ### Substring tests (Python `in`, regex search, case-insensitive option) -/

def containsSubAux (pat : List Char) : List Char → Bool
  | [] => pat.isPrefixOf []
  | c :: cs => pat.isPrefixOf (c :: cs) || containsSubAux pat cs

/-- Python `pat in s`. -/
def containsSub (s pat : String) : Bool := containsSubAux pat.data s.data

/-- Case-insensitive substring, modelling a Mongo `$regex` with
the `i` option applied to a plain (regex-free) search term. -/
def containsSubCI (s pat : String) : Bool :=
  containsSubAux (pat.data.map Char.toLower) (s.data.map Char.toLower)

/-! ### `CleanYouTubeTranscriber._extract_clean_text`

The three format-specific extractors (JSON events with its internal regex
fallback, XML `<text>` tags, VTT lines) call `json` and `re` library
routines; they are oracle parameters returning `Except Unit String`,
where `.error` stands for an exception escaping the branch into the outer
handler.  The dispatch conditions and the fallback structure are from the
source. -/

structure FormatOracles where
  jsonBranch : String → Except Unit String
  xmlBranch : String → Except Unit String
  vttBranch : String → Except Unit String

/-- The format dispatch of `_extract_clean_text`: JSON when the stripped
payload starts with a brace or mentions `events`, XML on `<text`, VTT on
`WEBVTT`, otherwise the payload is treated as plain text. -/
def dispatchExtract (fmt : FormatOracles) (raw : String) : Except Unit String :=
  if strStartsWith (String.mk (pyStrip raw.data)) "\x7b" || containsSub raw "events" then
    fmt.jsonBranch raw
  else if containsSub raw "<text" then fmt.xmlBranch raw
  else if containsSub raw "WEBVTT" then fmt.vttBranch raw
  else .ok raw

/-- `_extract_clean_text`: on an exception from format-specific extraction
the original payload is returned; otherwise the extracted text goes
through `_clean_extracted_text`. -/
def extract_clean_text (fmt : FormatOracles) (raw : String) : String :=
  match dispatchExtract fmt raw with
  | .error _ => raw
  | .ok text => cleanExtractedText text

/-- Format oracles in which every format-specific extraction raises. -/
def noOracle : FormatOracles :=
  ⟨fun _ => .error (), fun _ => .error (), fun _ => .error ()⟩

/-! ### Persistence model

`TranscriptRec` models a document of the `transcripts` collection (and,
in memory mode, of `MemoryStorage.transcripts`); `CatVideo` a document of
the `video_data` collection.  Mongo `ObjectId`s / `uuid4` identifiers are
modelled as `Nat`s drawn from fresh counters; `insert_one` appends, and
`find_one` returns the first match in insertion order. -/

structure VideoInfo where
  title : String
  duration : Nat
  uploader : String
  description : String
  tags : List String
deriving DecidableEq, Repr

structure TranscriptRec where
  tid : Nat
  video_url : String
  video_title : String
  duration : Nat
  transcript_content : String
  user_id : Option String
  video_info : VideoInfo
deriving DecidableEq, Repr

structure CatVideo where
  video_id : Nat
  name : String
  url : Option String
  transcript : Option String
  user_id : Option String
  source_type : String
  source_id : Option Nat
  keywords : List String
deriving DecidableEq, Repr

structure DB where
  transcripts : List TranscriptRec
  categorical : List CatVideo
  nextTid : Nat
  nextVid : Nat
deriving DecidableEq, Repr

/-- `DatabaseManager.get_transcript_by_url`:
`find_one` keyed on `video_url` alone — no `user_id` filter. -/
def get_transcript_by_url (db : DB) (video_url : String) : Option TranscriptRec :=
  db.transcripts.find? (fun r => r.video_url == video_url)

/-- The `keywords` entry of `_extract_structured_data` as flattened into
the categorical document: empty when the transcript is empty or an error
string (the function returns `{}` then). -/
def extract_structured_keywords (transcript_content : String) : List String :=
  if transcript_content = "" || strStartsWith transcript_content "Error:" then []
  else extract_keywords transcript_content

/-- `DatabaseManager.store_transcript` (with
`store_video_data_categorical`): insert the transcript document and the
derived categorical document, both owned by `user_id`, the latter
pointing back via `source_id`; returns the new transcript id. -/
def store_transcript (db : DB) (video_title video_url : String) (duration : Nat)
    (transcript_content : String) (video_info : VideoInfo)
    (user_id : Option String) : Nat × DB :=
  let t : TranscriptRec :=
    ⟨db.nextTid, video_url, video_title, duration, transcript_content, user_id,
      video_info⟩
  let c : CatVideo :=
    ⟨db.nextVid, video_title, some video_url, some transcript_content, user_id,
      "url", some db.nextTid, extract_structured_keywords transcript_content⟩
  (db.nextTid,
   { transcripts := db.transcripts ++ [t],
     categorical := db.categorical ++ [c],
     nextTid := db.nextTid + 1,
     nextVid := db.nextVid + 1 })

/-! ### The routes of `url_extraction.py`

`auth` is the `user_id` field of a verified JWT payload (`none` for a
missing/invalid token; the empty string for a payload whose `user_id` is
falsy).  `Env` packages the external calls the extract route makes. -/

inductive InfoResult where
  | ok (info : VideoInfo)
  | err (msg : String)
deriving DecidableEq, Repr

structure Env where
  getVideoInfo : String → InfoResult
  extractCleanCaptions : String → Option String
  downloadAndTranscribeAudio : String → String

inductive ExtractResponse where
  | authRequired
  | invalidUser
  | urlRequired
  | networkError
  | infoError (msg : String)
  | cached (transcript_id : Nat) (transcript_content : String)
  | extractionFailed (alternative_method : String)
  | invalidMethod
  | extracted (transcript_id : Nat) (transcript_content : String)
deriving DecidableEq, Repr

/-- The `/extract-transcript` route: auth, URL presence, video info (with
the network-error distinction), the unscoped cache lookup, method
dispatch, the emptiness check with its `alternative_method` hint, then
store.  `cached` is the `from_cache: true` response. -/
def extract_transcript (env : Env) (db : DB) (auth : Option String)
    (url? : Option String) (method : String) : ExtractResponse × DB :=
  match auth with
  | none => (.authRequired, db)
  | some user_id =>
    if user_id = "" then (.invalidUser, db)
    else
      match url? with
      | none => (.urlRequired, db)
      | some url =>
        if url = "" then (.urlRequired, db)
        else
          match env.getVideoInfo url with
          | .err msg =>
            if containsSub msg "Network connectivity issue" then (.networkError, db)
            else (.infoError msg, db)
          | .ok video_info =>
            match get_transcript_by_url db url with
            | some existing => (.cached existing.tid existing.transcript_content, db)
            | none =>
              if method = "captions" then
                match env.extractCleanCaptions url with
                | none => (.extractionFailed "audio", db)
                | some t =>
                  if t = "" then (.extractionFailed "audio", db)
                  else
                    let r := store_transcript db video_info.title url
                      video_info.duration t video_info (some user_id)
                    (.extracted r.1 t, r.2)
              else if method = "audio" then
                let t := env.downloadAndTranscribeAudio url
                if t = "" then (.extractionFailed "captions", db)
                else
                  let r := store_transcript db video_info.title url
                    video_info.duration t video_info (some user_id)
                  (.extracted r.1 t, r.2)
              else (.invalidMethod, db)

/-- Query of the `/get-transcript/<id>` route: `find_one` on `_id` and `user_id`. -/
def get_transcript_route (db : DB) (user_id : String) (tid : Nat) :
    Option TranscriptRec :=
  db.transcripts.find? (fun r => r.tid == tid && r.user_id == some user_id)

/-- Query of the `/search-transcripts` route: `user_id` conjoined with the
case-insensitive `$or` over title, content, uploader and tags. -/
def search_transcripts_route (db : DB) (user_id : String) (q : String) :
    List TranscriptRec :=
  db.transcripts.filter (fun r => r.user_id == some user_id &&
    (containsSubCI r.video_title q || containsSubCI r.transcript_content q ||
     containsSubCI r.video_info.uploader q ||
     r.video_info.tags.any (fun tag => containsSubCI tag q)))

/-- Mongo `delete_one`: remove the first matching document. -/
def removeFirst {α : Type} (p : α → Bool) : List α → List α
  | [] => []
  | x :: xs => if p x then xs else x :: removeFirst p xs

inductive DeleteResponse where
  | authRequired
  | invalidUser
  | notFound
  | deleted
deriving DecidableEq, Repr

/-- The `/delete-transcript/<id>` route: find the transcript scoped by
owner, `delete_one` it from the primary collection, `delete_many` the
categorical documents with this `source_id` and owner. -/
def delete_transcript_route (db : DB) (auth : Option String) (tid : Nat) :
    DeleteResponse × DB :=
  match auth with
  | none => (.authRequired, db)
  | some user_id =>
    if user_id = "" then (.invalidUser, db)
    else
      match db.transcripts.find?
          (fun r => r.tid == tid && r.user_id == some user_id) with
      | none => (.notFound, db)
      | some _ =>
        (.deleted,
         { db with
            transcripts := removeFirst
              (fun r => r.tid == tid && r.user_id == some user_id) db.transcripts,
            categorical := db.categorical.filter
              (fun c => !(c.source_id == some tid && c.user_id == some user_id)) })

/-- Query of the `/get-categorical-video/<id>` route: `find_one` on `video_id` and `user_id`. -/
def get_categorical_video_route (db : DB) (user_id : String) (vid : Nat) :
    Option CatVideo :=
  db.categorical.find? (fun c => c.video_id == vid && c.user_id == some user_id)

/-! ### Concrete fixtures used by witnesses and counterexamples -/

def infoW : VideoInfo := ⟨"T", 10, "up", "d", []⟩

def envW : Env :=
  ⟨fun _ => .ok infoW, fun _ => some "captions text", fun _ => "audio text"⟩

def db0 : DB := ⟨[], [], 0, 0⟩

def aliceRec : TranscriptRec :=
  ⟨0, "https://y/u", "T", 10, "alices secret transcript", some "alice", infoW⟩

def dbAlice : DB := ⟨[aliceRec], [], 1, 1⟩

/-- C4 (amended): `_extract_clean_text` is total; when the
format-specific extraction raises, it returns the original payload
unchanged; when extraction succeeds, it returns the cleanup of the
extracted text — which is the empty string, not the original payload,
whenever cleanup empties the text. -/
theorem claim_C4 (fmt : FormatOracles) (raw : String) :
    (∀ e : Unit, dispatchExtract fmt raw = .error e →
      extract_clean_text fmt raw = raw) ∧
    (∀ t : String, dispatchExtract fmt raw = .ok t →
      extract_clean_text fmt raw = cleanExtractedText t) := by
  constructor
  · intro e h
    unfold extract_clean_text
    rw [h]
  · intro t h
    unfold extract_clean_text
    rw [h]

/-- C4 witness instance: a payload dispatched to the (raising) JSON
branch comes back unchanged. -/
theorem claim_C4_witness :
    dispatchExtract noOracle "\x7b \x7d" = .error () ∧
    extract_clean_text noOracle "\x7b \x7d" = "\x7b \x7d" :=
  ⟨rfl, (claim_C4 noOracle "\x7b \x7d").1 () rfl⟩

/-- C4 counterexample: the plain-text payload `"[Music]"` survives
format dispatch unchanged, but the cleanup pass empties it, and the
normalizer returns `""` — not the original payload as the claim states. -/
theorem claim_C4_counterexample :
    extract_clean_text noOracle "[Music]" = "" ∧
    ("" : String) ≠ "[Music]" := by
  exact ⟨by decide, by decide⟩

/-! ### C1: ownership filters -/

theorem mem_of_not_mem_removeFirst {α : Type} {p : α → Bool} {r : α} :
    ∀ {l : List α}, r ∈ l → r ∉ removeFirst p l → p r = true := by
  intro l
  induction l with
  | nil => intro h; simp at h
  | cons x xs ih =>
    intro hmem hnot
    rw [removeFirst] at hnot
    split at hnot
    · rcases List.mem_cons.mp hmem with rfl | hmem
      · assumption
      · exact absurd hmem hnot
    · rcases List.mem_cons.mp hmem with rfl | hmem
      · exact absurd (List.mem_cons_self _ _) hnot
      · exact ih hmem (fun hc => hnot (List.mem_cons_of_mem _ hc))

theorem not_mem_filter_pred {α : Type} {p : α → Bool} {r : α} {l : List α}
    (hmem : r ∈ l) (hnot : r ∉ l.filter p) : p r = false := by
  by_contra h
  rw [Bool.not_eq_false] at h
  exact hnot (List.mem_filter.mpr ⟨hmem, h⟩)

/-- The delete route either leaves the state unchanged (auth failure or
not-found) or performs exactly the scoped `delete_one` and `delete_many`. -/
theorem delete_transcript_route_state (db : DB) (user_id : String) (tid : Nat) :
    (delete_transcript_route db (some user_id) tid).2 = db ∨
    (delete_transcript_route db (some user_id) tid).2 =
      { db with
          transcripts := removeFirst
            (fun r => r.tid == tid && r.user_id == some user_id) db.transcripts,
          categorical := db.categorical.filter
            (fun c => !(c.source_id == some tid && c.user_id == some user_id)) } := by
  unfold delete_transcript_route
  dsimp only
  split
  · exact Or.inl rfl
  · split
    · exact Or.inl rfl
    · exact Or.inr rfl

/-- C1 (amended): the route-level read, search and delete operations all
filter by the `user_id` of the requesting user — a fetched or searched record
is owned by the requester, and delete only ever removes records owned by
the requester (from both collections); but the dedup lookup
`get_transcript_by_url` used by the extract route is keyed by URL alone,
so a cached transcript can be observed by a different user (see the
counterexample). -/
theorem claim_C1 (db : DB) (user_id : String) (tid vid : Nat) (q : String)
    (r : TranscriptRec) (c : CatVideo) :
    (get_transcript_route db user_id tid = some r → r.user_id = some user_id) ∧
    (r ∈ search_transcripts_route db user_id q → r.user_id = some user_id) ∧
    (r ∈ db.transcripts →
      r ∉ (delete_transcript_route db (some user_id) tid).2.transcripts →
      r.user_id = some user_id) ∧
    (c ∈ db.categorical →
      c ∉ (delete_transcript_route db (some user_id) tid).2.categorical →
      c.user_id = some user_id) ∧
    (get_categorical_video_route db user_id vid = some c →
      c.user_id = some user_id) := by
  refine ⟨?_, ?_, ?_, ?_, ?_⟩
  · intro h
    have := List.find?_some h
    simp only [Bool.and_eq_true, beq_iff_eq] at this
    exact this.2
  · intro h
    have := (List.mem_filter.mp h).2
    simp only [Bool.and_eq_true, beq_iff_eq] at this
    exact this.1
  · intro hmem hnot
    rcases delete_transcript_route_state db user_id tid with heq | heq
    · rw [heq] at hnot
      exact absurd hmem hnot
    · rw [heq] at hnot
      have := mem_of_not_mem_removeFirst hmem hnot
      simp only [Bool.and_eq_true, beq_iff_eq] at this
      exact this.2
  · intro hmem hnot
    rcases delete_transcript_route_state db user_id tid with heq | heq
    · rw [heq] at hnot
      exact absurd hmem hnot
    · rw [heq] at hnot
      have := not_mem_filter_pred hmem hnot
      simp only [Bool.not_eq_false', Bool.and_eq_true, beq_iff_eq] at this
      exact this.2
  · intro h
    have := List.find?_some h
    simp only [Bool.and_eq_true, beq_iff_eq] at this
    exact this.2

/-- C1 witness instance: the scoped read returns the record of Alice to Alice,
and deleting as Alice removes only records Alice owns. -/
theorem claim_C1_witness :
    get_transcript_route dbAlice "alice" 0 = some aliceRec ∧
    aliceRec.user_id = some "alice" ∧
    aliceRec ∈ dbAlice.transcripts ∧
    aliceRec ∉ (delete_transcript_route dbAlice (some "alice") 0).2.transcripts :=
  ⟨by decide,
   (claim_C1 dbAlice "alice" 0 0 "q" aliceRec
      ⟨0, "T", none, none, none, "url", none, []⟩).1 (by decide),
   by decide, by decide⟩

/-- C1 counterexample: the dedup lookup before extraction is not filtered
by the requesting user: with the transcript of Alice cached for a URL, an
extract request by Bob on the same URL observes her stored record (returned
`from_cache` with her content), although its owner differs from Bob. -/
theorem claim_C1_counterexample :
    extract_transcript envW dbAlice (some "bob") (some "https://y/u") "captions" =
      (.cached 0 "alices secret transcript", dbAlice) ∧
    (get_transcript_by_url dbAlice "https://y/u").map (fun r => r.user_id) =
      some (some "alice") ∧
    ("alice" : String) ≠ "bob" := by
  exact ⟨by decide, by decide, by decide⟩

/-! ### C2: read-through cache idempotence -/

theorem find?_append_none {α : Type} {p : α → Bool} {l1 l2 : List α}
    (h : l1.find? p = none) : (l1 ++ l2).find? p = l2.find? p := by
  induction l1 with
  | nil => simp
  | cons x xs ih =>
    cases hpx : p x with
    | true =>
      rw [List.find?_cons_of_pos _ hpx] at h
      exact absurd h (by simp)
    | false =>
      have hpx2 : ¬p x = true := by simp [hpx]
      rw [List.find?_cons_of_neg _ hpx2] at h
      rw [List.cons_append, List.find?_cons_of_neg _ hpx2]
      exact ih h

/-- Inversion of a successful (non-cached) extraction: the URL was
nonempty, video info resolved, the cache lookup missed, the extracted
text is nonempty, and the final state is the corresponding store. -/
theorem extract_extracted_inv {env : Env} {db db2 : DB} {u url method : String}
    {tid : Nat} {t : String}
    (h : extract_transcript env db (some u) (some url) method =
      (.extracted tid t, db2)) :
    url ≠ "" ∧ ∃ info, env.getVideoInfo url = .ok info ∧
      get_transcript_by_url db url = none ∧ t ≠ "" ∧ tid = db.nextTid ∧
      db2 = (store_transcript db info.title url info.duration t info
        (some u)).2 := by
  unfold extract_transcript at h
  dsimp only at h
  split at h
  · simp at h
  · split at h
    · simp at h
    · rename_i hurl
      split at h
      · split at h
        · simp at h
        · simp at h
      · rename_i info hinfo
        split at h
        · simp at h
        · rename_i hcache
          split at h
          · split at h
            · simp at h
            · rename_i t0 hcap
              split at h
              · simp at h
              · rename_i ht0
                rw [Prod.mk.injEq, ExtractResponse.extracted.injEq] at h
                obtain ⟨⟨htid, hteq⟩, hdb⟩ := h
                subst hteq
                exact ⟨hurl, info, hinfo, hcache, ht0,
                  htid.symm, hdb.symm⟩
          · split at h
            · split at h
              · simp at h
              · rename_i ht0
                rw [Prod.mk.injEq, ExtractResponse.extracted.injEq] at h
                obtain ⟨⟨htid, hteq⟩, hdb⟩ := h
                subst hteq
                exact ⟨hurl, info, hinfo, hcache, ht0,
                  htid.symm, hdb.symm⟩
            · simp at h

/-- C2: if an extract call performed a fresh extraction and returned
text `t` (storing it), then an immediately following extract on the same
URL — by any authenticated user, with any method parameter, in any
environment that resolves video info the same way (the caption and audio
oracles are irrelevant: extraction and insight computation are skipped) —
returns the `from_cache` response with the same transcript id and
identical text, and leaves the state unchanged. -/
theorem claim_C2 (env env2 : Env) (db db2 : DB) (u u2 url method method2 : String)
    (tid : Nat) (t : String)
    (h1 : extract_transcript env db (some u) (some url) method =
      (.extracted tid t, db2))
    (henv : env2.getVideoInfo = env.getVideoInfo)
    (hu2 : u2 ≠ "") :
    extract_transcript env2 db2 (some u2) (some url) method2 =
      (.cached tid t, db2) := by
  obtain ⟨hurl, info, hinfo, hcache, ht, htid, hdb2⟩ := extract_extracted_inv h1
  have hfind : get_transcript_by_url db2 url =
      some ⟨db.nextTid, url, info.title, info.duration, t, some u, info⟩ := by
    rw [hdb2]
    unfold get_transcript_by_url store_transcript
    dsimp only
    rw [find?_append_none hcache]
    simp [List.find?_cons]
  unfold extract_transcript
  dsimp only
  rw [if_neg hu2, if_neg hurl, henv, hinfo]
  dsimp only
  rw [hfind]
  dsimp only
  rw [htid]

/-- C2 witness instance: extracting, then extracting the same URL again,
returns the cached identical text without changing state. -/
theorem claim_C2_witness :
    extract_transcript envW
        (extract_transcript envW db0 (some "alice") (some "https://y/u")
          "captions").2
        (some "alice") (some "https://y/u") "captions" =
      (.cached 0 "captions text",
       (extract_transcript envW db0 (some "alice") (some "https://y/u")
         "captions").2) :=
  claim_C2 envW envW db0 _ "alice" "alice" "https://y/u" "captions" "captions"
    0 "captions text" (by decide) rfl (by decide)

/-! ### C3: captions failure handling -/

/-- C3 (amended): when the caller requests `method="captions"` and the
caption extractor yields no text (no native or automatic captions), the
route does not fall back to audio transcription: it returns the
`extraction_failed` error response suggesting `"audio"` as the
alternative method, leaves the state unchanged, and never consults the
audio transcriber (the response is the same under any audio oracle); all
failures are mapped to responses, not unhandled exceptions. -/
theorem claim_C3 (env : Env) (db : DB) (u url : String) (info : VideoInfo)
    (hu : u ≠ "") (hurl : url ≠ "")
    (hinfo : env.getVideoInfo url = .ok info)
    (hcache : get_transcript_by_url db url = none)
    (hcap : env.extractCleanCaptions url = none ∨
      env.extractCleanCaptions url = some "") :
    extract_transcript env db (some u) (some url) "captions" =
      (.extractionFailed "audio", db) ∧
    (∀ env2 : Env, env2.getVideoInfo = env.getVideoInfo →
      env2.extractCleanCaptions = env.extractCleanCaptions →
      extract_transcript env2 db (some u) (some url) "captions" =
        (.extractionFailed "audio", db)) := by
  have key : ∀ env3 : Env, env3.getVideoInfo url = .ok info →
      env3.extractCleanCaptions url = env.extractCleanCaptions url →
      extract_transcript env3 db (some u) (some url) "captions" =
        (.extractionFailed "audio", db) := by
    intro env3 h3 hc3
    unfold extract_transcript
    dsimp only
    rw [if_neg hu, if_neg hurl, h3]
    dsimp only
    rw [hcache]
    dsimp only
    rw [if_pos rfl]
    rcases hcap with hnone | hempty
    · rw [hc3, hnone]
    · rw [hc3, hempty]
      dsimp only
      rw [if_pos rfl]
  refine ⟨key env hinfo rfl, fun env2 he hc => key env2 ?_ ?_⟩
  · rw [he]; exact hinfo
  · rw [hc]

def envNoCap : Env :=
  ⟨fun _ => .ok infoW, fun _ => none, fun _ => "audio would succeed"⟩

def envNoCap2 : Env :=
  ⟨fun _ => .ok infoW, fun _ => none, fun _ => "different audio"⟩

/-- C3 witness instance. -/
theorem claim_C3_witness :
    extract_transcript envNoCap db0 (some "alice") (some "https://y/u")
      "captions" = (.extractionFailed "audio", db0) :=
  (claim_C3 envNoCap db0 "alice" "https://y/u" infoW (by decide) (by decide)
    rfl rfl (Or.inl rfl)).1

/-- C3 counterexample: with no captions available and an audio oracle
that would succeed, the `method="captions"` request returns the
`extraction_failed` error response (suggesting audio as an alternative),
identically under two different audio oracles — no automatic fallback to
audio transcription happens and no `RecognitionFailure`-with-empty-
transcript result is produced. -/
theorem claim_C3_counterexample :
    extract_transcript envNoCap db0 (some "alice") (some "https://y/u")
      "captions" = (.extractionFailed "audio", db0) ∧
    extract_transcript envNoCap2 db0 (some "alice") (some "https://y/u")
      "captions" = (.extractionFailed "audio", db0) ∧
    ExtractResponse.extractionFailed "audio" ≠ ExtractResponse.extracted 0 "" := by
  exact ⟨by decide, by decide, by decide⟩

/-! ### C8: at most one record per source -/

/-- The extract route either leaves the state unchanged or performs a
store for a URL whose cache lookup missed. -/
theorem extract_transcript_db_cases (env : Env) (db : DB) (auth : Option String)
    (url? : Option String) (method : String) :
    (extract_transcript env db auth url? method).2 = db ∨
    ∃ url uid t info, url? = some url ∧ get_transcript_by_url db url = none ∧
      (extract_transcript env db auth url? method).2 =
        (store_transcript db info.title url info.duration t info
          (some uid)).2 := by
  unfold extract_transcript
  cases auth with
  | none => exact Or.inl rfl
  | some uid =>
    dsimp only
    split
    · exact Or.inl rfl
    · cases url? with
      | none => exact Or.inl rfl
      | some url =>
        dsimp only
        split
        · exact Or.inl rfl
        · split
          · split
            · exact Or.inl rfl
            · exact Or.inl rfl
          · rename_i info hinfo
            split
            · exact Or.inl rfl
            · rename_i hcache
              split
              · split
                · exact Or.inl rfl
                · rename_i t0 hcap
                  split
                  · exact Or.inl rfl
                  · exact Or.inr ⟨url, uid, t0, info, rfl, hcache, rfl⟩
              · split
                · split
                  · exact Or.inl rfl
                  · exact Or.inr ⟨url, uid, _, info, rfl, hcache, rfl⟩
                · exact Or.inl rfl

theorem removeFirst_sublist {α : Type} (p : α → Bool) :
    ∀ l : List α, (removeFirst p l).Sublist l := by
  intro l
  induction l with
  | nil => simp [removeFirst]
  | cons x xs ih =>
    rw [removeFirst]
    split
    · exact List.Sublist.cons x (List.Sublist.refl xs)
    · exact List.Sublist.cons₂ x ih

theorem delete_route_db_cases (db : DB) (auth : Option String) (tid : Nat) :
    (delete_transcript_route db auth tid).2 = db ∨
    ∃ user_id, (delete_transcript_route db auth tid).2 =
      { db with
          transcripts := removeFirst
            (fun r => r.tid == tid && r.user_id == some user_id) db.transcripts,
          categorical := db.categorical.filter
            (fun c => !(c.source_id == some tid && c.user_id == some user_id)) } := by
  cases auth with
  | none => exact Or.inl rfl
  | some user_id =>
    rcases delete_transcript_route_state db user_id tid with h | h
    · exact Or.inl h
    · exact Or.inr ⟨user_id, h⟩

theorem filter_eq_nil_of_find?_none {α : Type} {p : α → Bool} {l : List α}
    (h : l.find? p = none) : l.filter p = [] := by
  rw [List.filter_eq_nil]
  intro a ha
  rw [List.find?_eq_none] at h
  exact h a ha

/-- C8 (amended): the invariant "at most one stored transcript per source
URL" is preserved by every extract operation (which checks the cache
before storing) and by every delete; but a bare second `store_transcript`
for the same URL inserts a fresh record rather than overwriting — it
duplicates (see the counterexample). -/
theorem claim_C8 (env : Env) (db : DB) (auth : Option String)
    (url? : Option String) (method : String) (tid : Nat) (u : String)
    (h : (db.transcripts.filter (fun r => r.video_url == u)).length ≤ 1) :
    ((extract_transcript env db auth url? method).2.transcripts.filter
      (fun r => r.video_url == u)).length ≤ 1 ∧
    ((delete_transcript_route db auth tid).2.transcripts.filter
      (fun r => r.video_url == u)).length ≤ 1 := by
  constructor
  · rcases extract_transcript_db_cases env db auth url? method with heq |
      ⟨url, uid, t, info, hurl, hcache, heq⟩
    · rw [heq]; exact h
    · rw [heq]
      unfold store_transcript
      dsimp only
      rw [List.filter_append, List.length_append]
      by_cases hu : url = u
      · subst hu
        have hnil : db.transcripts.filter (fun r => r.video_url == url) = [] :=
          filter_eq_nil_of_find?_none hcache
        rw [hnil]
        simp [List.filter_cons]
      · have : (([⟨db.nextTid, url, info.title, info.duration, t, some uid,
            info⟩] : List TranscriptRec).filter
            (fun r => r.video_url == u)).length = 0 := by
          simp [List.filter_cons, hu]
        omega
  · rcases delete_route_db_cases db auth tid with heq | ⟨user_id, heq⟩
    · rw [heq]; exact h
    · rw [heq]
      have hsub := (removeFirst_sublist
        (fun r => r.tid == tid && r.user_id == some user_id)
        db.transcripts).filter (fun r => r.video_url == u)
      exact le_trans hsub.length_le h

/-- C8 witness instance. -/
theorem claim_C8_witness :
    ((extract_transcript envW db0 (some "alice") (some "https://y/u")
      "captions").2.transcripts.filter
        (fun r => r.video_url == "https://y/u")).length ≤ 1 ∧
    ((delete_transcript_route db0 (some "alice") 0).2.transcripts.filter
      (fun r => r.video_url == "https://y/u")).length ≤ 1 :=
  claim_C8 envW db0 (some "alice") (some "https://y/u") "captions" 0
    "https://y/u" (by decide)

/-- C8 counterexample: two direct stores for the same URL leave two
non-deleted records for that source — the second store does not overwrite
the first. -/
theorem claim_C8_counterexample :
    ((store_transcript
        (store_transcript db0 "T" "https://y/u" 10 "first" infoW
          (some "alice")).2
        "T" "https://y/u" 10 "second" infoW (some "alice")).2.transcripts.filter
      (fun r => r.video_url == "https://y/u")).length = 2 := by
  decide

/-! ### C9: cascading delete -/

theorem removeFirst_filter_length_lt {α : Type} {p q : α → Bool}
    (hpq : ∀ a, p a = true → q a = true) :
    ∀ l : List α, (∃ a ∈ l, p a = true) →
    ((removeFirst p l).filter q).length < (l.filter q).length := by
  intro l
  induction l with
  | nil => intro h; simp at h
  | cons x xs ih =>
    intro hex
    rw [removeFirst]
    split
    · rename_i hpx
      rw [List.filter_cons_of_pos (hpq x hpx)]
      simp
    · rename_i hpx
      have hex2 : ∃ a ∈ xs, p a = true := by
        rcases hex with ⟨a, ha, hpa⟩
        rcases List.mem_cons.mp ha with rfl | ha
        · exact absurd hpa hpx
        · exact ⟨a, ha, hpa⟩
      rw [List.filter_cons, List.filter_cons]
      split
      · simpa using ih hex2
      · exact ih hex2

theorem two_mem_le_length {α : Type} {a b : α} {l : List α}
    (ha : a ∈ l) (hb : b ∈ l) (hab : a ≠ b) : 2 ≤ l.length := by
  cases l with
  | nil => simp at ha
  | cons x xs =>
    cases xs with
    | nil =>
      rcases List.mem_singleton.mp ha with rfl
      rcases List.mem_singleton.mp hb with rfl
      exact absurd rfl hab
    | cons y ys =>
      simp only [List.length_cons]
      omega

/-- C9: if the requesting user owns transcript `tid` (ids unique), and
`c` is its derived categorical record (same owner, `source_id = tid`,
`video_id` unique), then after the delete route succeeds, the scoped get
on the transcript id and the scoped get on the derived categorical
record (by its `video_id`) both return not-found. -/
theorem claim_C9 (db : DB) (u : String) (tid : Nat) (c : CatVideo) (db2 : DB)
    (hids : (db.transcripts.filter (fun r => r.tid == tid)).length ≤ 1)
    (hc : c ∈ db.categorical) (hsrc : c.source_id = some tid)
    (hcu : c.user_id = some u)
    (hvid : (db.categorical.filter
      (fun x => x.video_id == c.video_id)).length ≤ 1)
    (hdel : delete_transcript_route db (some u) tid = (.deleted, db2)) :
    get_transcript_route db2 u tid = none ∧
    get_categorical_video_route db2 u c.video_id = none := by
  unfold delete_transcript_route at hdel
  dsimp only at hdel
  split at hdel
  · simp at hdel
  · split at hdel
    · simp at hdel
    · rename_i m hfound
      rw [Prod.mk.injEq] at hdel
      have hdb2 := hdel.2.symm
      constructor
      · rw [hdb2]
        unfold get_transcript_route
        dsimp only
        rw [List.find?_eq_none]
        intro x hx
        rw [Bool.not_eq_true]
        by_contra hpx
        rw [Bool.not_eq_false] at hpx
        have hqx : (fun r : TranscriptRec => r.tid == tid) x = true := by
          simp only [Bool.and_eq_true] at hpx
          exact hpx.1
        have hfm := List.find?_some hfound
        have hex : ∃ a ∈ db.transcripts,
            (fun r : TranscriptRec =>
              r.tid == tid && r.user_id == some u) a = true :=
          ⟨m, List.mem_of_find?_eq_some hfound, hfm⟩
        have hlt := removeFirst_filter_length_lt
          (p := fun r : TranscriptRec => r.tid == tid && r.user_id == some u)
          (q := fun r : TranscriptRec => r.tid == tid)
          (fun a hpa => by
            simp only [Bool.and_eq_true] at hpa
            exact hpa.1)
          db.transcripts hex
        have hzero : ((removeFirst
            (fun r : TranscriptRec => r.tid == tid && r.user_id == some u)
            db.transcripts).filter
              (fun r : TranscriptRec => r.tid == tid)).length = 0 := by
          omega
        rw [List.length_eq_zero] at hzero
        have hxmem : x ∈ (removeFirst
            (fun r : TranscriptRec => r.tid == tid && r.user_id == some u)
            db.transcripts).filter
              (fun r : TranscriptRec => r.tid == tid) :=
          List.mem_filter.mpr ⟨hx, hqx⟩
        rw [hzero] at hxmem
        simp at hxmem
      · rw [hdb2]
        unfold get_categorical_video_route
        dsimp only
        rw [List.find?_eq_none]
        intro x hx
        rw [Bool.not_eq_true]
        by_contra hpx
        rw [Bool.not_eq_false] at hpx
        simp only [Bool.and_eq_true, beq_iff_eq] at hpx
        obtain ⟨hxvid, hxuser⟩ := hpx
        have hxmem : x ∈ db.categorical := List.mem_of_mem_filter hx
        have hxc : x = c := by
          by_contra hne
          have h2 : 2 ≤ (db.categorical.filter
              (fun y => y.video_id == c.video_id)).length :=
            two_mem_le_length
              (List.mem_filter.mpr ⟨hxmem, by simp [hxvid]⟩)
              (List.mem_filter.mpr ⟨hc, by simp⟩) hne
          omega
        subst hxc
        have hkeep := (List.mem_filter.mp hx).2
        simp only [hsrc, hcu, Bool.not_eq_true', Bool.and_eq_true,
          beq_iff_eq] at hkeep
        simp at hkeep

def catW : CatVideo :=
  ⟨0, "T", some "https://y/u", some "txt", some "alice", "url", some 0, []⟩

def dbW9 : DB :=
  ⟨[⟨0, "https://y/u", "T", 10, "txt", some "alice", infoW⟩], [catW], 1, 1⟩

/-- C9 witness instance. -/
theorem claim_C9_witness :
    get_transcript_route (delete_transcript_route dbW9 (some "alice") 0).2
      "alice" 0 = none ∧
    get_categorical_video_route (delete_transcript_route dbW9 (some "alice") 0).2
      "alice" catW.video_id = none :=
  claim_C9 dbW9 "alice" 0 catW _ (by decide) (by decide) rfl rfl (by decide)
    (by decide)

/-- C10: the text returned by the cleanup pass (`_clean_extracted_text`)
carries no sentence-terminal punctuation: the final step splits on runs of
`.`, `!`, `?` and rejoins the stripped pieces with single spaces, so no
such character survives in the result, for every input string. -/
theorem claim_C10 (s : String) :
    (cleanExtractedText s).data.all (fun c => !(sentEnd c)) = true := by
  rw [List.all_eq_true]
  intro c hc
  have : sentEnd c = false :=
    clean_extracted_text_no_delim s.data c hc
  simp [this]

end Summarizer
